import Mathlib

/-!
Verification development for the dune shell: a shallow embedding of the
interpreter (src/tokens.rs, src/shell.rs) and of the parser (src/parser.rs)
of the repository, together with theorems settling the specified properties.

The AST mirrors src/tokens.rs exactly.  The execution model mirrors the
Execute impls of src/tokens.rs and the Shell methods of src/shell.rs.
The machine primitives (push, pop, load, store, index, assign, call,
get_arg) come from the external xmachine crate, which is not part of this
repository's sources; they are modelled from the specification's machine
table.  The host filesystem and stdin are modelled by an oracle structure
and an event trace, since the specification treats them as an opaque host
environment.  Reference-counted sharing of the register tree between a
caller and a callee is modelled by threading the register state into the
callee and writing it back on return, which is observationally equivalent
for the single-threaded execution the specification describes.

Numbers are modelled as rationals rather than IEEE-754 doubles: none of
the properties below exercise rounding, infinities or NaN.
-/

namespace Dune

/-- Identifier from src/tokens.rs: a wrapped name string. -/
structure Identifier where
  name : String
deriving DecidableEq, Repr

/-- Builtin enumeration from src/tokens.rs (List, ChangeDir, Move, Clear,
Remove, MakeDir, MakeFile, ShellOut, WorkingDir, Exit). -/
inductive BuiltinOp
  | list
  | changeDir
  | move
  | clear
  | remove
  | makeDir
  | makeFile
  | shellOut
  | workingDir
  | exit
deriving DecidableEq, Repr

/-- Literal from src/tokens.rs: a string or a number.  Numbers are modelled
as rationals in place of f64. -/
inductive Literal
  | str (s : String)
  | num (n : Rat)
deriving DecidableEq, Repr

mutual

/-- Value from src/tokens.rs: Name, Literal, FnCall, Builtin or Function. -/
inductive ValueAst
  | name (n : NameAst)
  | literal (l : Literal)
  | fnCall (c : FnCall)
  | builtin (b : BuiltinOp)
  | function (f : FunctionAst)

/-- FnCall from src/tokens.rs: a callee value and an argument list. -/
inductive FnCall
  | mk (callee : ValueAst) (args : List ValueAst)

/-- Name from src/tokens.rs: a plain identifier, an indexed name or a
dotted name. -/
inductive NameAst
  | name (id : Identifier)
  | indexName (head : ValueAst) (path : List ValueAst)
  | dotName (head : ValueAst) (path : List Identifier)

/-- Expr from src/tokens.rs. -/
inductive Expr
  | assignment (n : NameAst) (v : ValueAst)
  | whileLoop (c : ValueAst) (b : Suite)
  | ifThenElse (c : ValueAst) (t : Suite) (e : Suite)
  | functionDef (d : FunctionDef)
  | value (v : ValueAst)

/-- Suite from src/tokens.rs: a sequence of expressions. -/
inductive Suite
  | mk (es : List Expr)

/-- FunctionDef from src/tokens.rs: a name together with a function. -/
inductive FunctionDef
  | mk (n : NameAst) (f : FunctionAst)

/-- Function from src/tokens.rs: parameter identifiers and a body suite. -/
inductive FunctionAst
  | mk (params : List Identifier) (body : Suite)

end

/-- Host-provided primitives registered into the machine by the machine()
constructor of src/shell.rs, plus the anonymous do-nothing closure that the
map primitive substitutes for a missing function argument. -/
inductive HostFn
  | print
  | println
  | dict
  | mapF
  | notF
  | eq
  | neq
  | gt
  | lt
  | le
  | ge
  | add
  | sub
  | mul
  | div
  | rem
  | inputF
  | evalF
  | help
  | debug
  | info
  | logo
  | noop
deriving DecidableEq, Repr

/-- Body of a runtime function value.  The Rust code stores closures; the
only closures ever stored are the re-entrant executor closure built by
Function::execute in src/tokens.rs (captured by its parameter list and its
body suite) and the host primitives of src/shell.rs, so function values are
defunctionalised into these two cases. -/
inductive FnBody
  | user (params : List Identifier) (body : Suite)
  | host (h : HostFn)

/-- Runtime value universe, modelled from the specification's data model
(xmachine's Value is not part of this repository's sources): number,
string, list, insertion-ordered tree, function.  The Ref wrapper is not
represented: values are modelled with value semantics, and the sharing of
the register tree across calls is modelled explicitly by the call
operation. -/
inductive RValue
  | num (n : Rat)
  | str (s : String)
  | list (l : List RValue)
  | tree (t : List (String × RValue))
  | func (f : FnBody)

/-- Display of a rational, standing in for the shortest round-trip decimal
display of an f64: integers print with no fractional part. -/
def numStr (q : Rat) : String :=
  if q.den = 1 then toString q.num else toString q.num ++ "/" ++ toString q.den

mutual

/-- Display form of a runtime value, modelled from the specification's
display coercion: numbers in decimal, strings unquoted, lists bracketed,
trees braced.  The display of a function value is not specified; an
arbitrary constant is used. -/
def display : RValue → String
  | .num q => numStr q
  | .str s => s
  | .list l => "[" ++ String.intercalate ", " (displayList l) ++ "]"
  | .tree t => "\x7b" ++ String.intercalate ", " (displayTree t) ++ "\x7d"
  | .func _ => "<function>"

/-- Display forms of the elements of a list value. -/
def displayList : List RValue → List String
  | [] => []
  | v :: r => display v :: displayList r

/-- Display forms of the entries of a tree value. -/
def displayTree : List (String × RValue) → List String
  | [] => []
  | kv :: r => (kv.1 ++ ": " ++ display kv.2) :: displayTree r

end

/-- Truthiness coercion from the specification's data model: zero, the
empty string, the empty list and the empty tree are false; functions and
everything else are true. -/
def truthy : RValue → Bool
  | .num q => q ≠ 0
  | .str s => s ≠ ""
  | .list l => !l.isEmpty
  | .tree t => !t.isEmpty
  | .func _ => true

/-- Machine from the specification: an evaluation stack and a register
tree.  The register tree is an insertion-ordered association list from
identifier strings to values. -/
structure Machine where
  stack : List RValue
  registers : List (String × RValue)

/-- Shell from src/shell.rs: current directory, machine, termination flag. -/
structure Shell where
  directory : String
  machine : Machine
  isDone : Bool

/-- Observable host interactions.  Every call a built-in or host primitive
makes into the host environment (filesystem operations, spawned processes,
terminal output) is recorded as one event. -/
inductive Event
  | out (s : String)
  | outln (s : String)
  | canonicalize (p : String)
  | renameFs (oldPath newPath : String)
  | removeDirAll (p : String)
  | removeFile (p : String)
  | createDirAll (p : String)
  | writeFile (p : String)
  | readDir (p : String)
  | spawn (cmd : String)
  | parseErr
  | infoDump
  | machineDump
  | logoDump
deriving DecidableEq, Repr

/-- Host world state outside the shell: the trace of host interactions so
far and the remaining stdin lines. -/
structure World where
  events : List Event
  stdin : List String

/-- A configuration: the shell paired with the host world. -/
structure Conf where
  shell : Shell
  world : World

/-- Host oracle, modelling the fallible host filesystem interface of the
specification: canonicalize may fail (None), read_dir yields child names
(the empty list doubles for a read failure, which src/shell.rs treats the
same way), and home_directory gives the home path used by Shell::new. -/
structure Fs where
  canonicalize : String → Option String
  readDir : String → List String
  home : String

/-- Join of a path string onto a directory, modelling PathBuf::push from
the Rust standard library (outside this repository's sources): an absolute
path replaces the directory, anything else is appended after a separator. -/
def pathPush (d p : String) : String :=
  if p.startsWith "/" then p else d ++ "/" ++ p

/-- Stack of a configuration. -/
def Conf.stack (c : Conf) : List RValue :=
  c.shell.machine.stack

/-- Registers of a configuration. -/
def Conf.registers (c : Conf) : List (String × RValue) :=
  c.shell.machine.registers

/-- Current directory of a configuration. -/
def Conf.directory (c : Conf) : String :=
  c.shell.directory

/-- Termination flag of a configuration. -/
def Conf.isDone (c : Conf) : Bool :=
  c.shell.isDone

/-- Event trace of a configuration. -/
def Conf.events (c : Conf) : List Event :=
  c.world.events

/-- Replace the stack of a configuration. -/
def Conf.withStack (c : Conf) (l : List RValue) : Conf :=
  { c with shell := { c.shell with machine := { c.shell.machine with stack := l } } }

/-- Replace the registers of a configuration. -/
def Conf.withRegisters (c : Conf) (r : List (String × RValue)) : Conf :=
  { c with shell := { c.shell with machine := { c.shell.machine with registers := r } } }

/-- Append one event to the trace of a configuration. -/
def Conf.addEvent (c : Conf) (e : Event) : Conf :=
  { c with world := { c.world with events := c.world.events ++ [e] } }

/-- Machine push from the specification: append the value on top of the
stack. -/
def Conf.push (c : Conf) (v : RValue) : Conf :=
  c.withStack (v :: c.stack)

/-- Machine pop from the specification: remove and return the top of the
stack, None when the stack is empty. -/
def Conf.pop (c : Conf) : Option RValue × Conf :=
  match c.stack with
  | [] => (none, c)
  | v :: r => (some v, c.withStack r)

/-- Insertion-ordered register update: an existing key is overwritten in
place, a new key is appended. -/
def setReg (k : String) (v : RValue) : List (String × RValue) → List (String × RValue)
  | [] => [(k, v)]
  | (k2, v2) :: r => if k2 = k then (k, v) :: r else (k2, v2) :: setReg k v r

/-- Register lookup by identifier string. -/
def lookupReg (k : String) : List (String × RValue) → Option RValue
  | [] => none
  | (k2, v2) :: r => if k2 = k then some v2 else lookupReg k r

/-- Key form of a popped value: strings are used directly, anything else
through its display form (modelled; xmachine is outside this repository's
sources and the specification only exercises string keys). -/
def keyOf : RValue → String
  | .str s => s
  | v => display v

/-- Machine load from the specification: pop a key, push the register bound
to it.  Following the specification's stated option for the open question,
a missing key yields a fresh empty tree. -/
def Conf.load (c : Conf) : Conf :=
  match c.pop with
  | (none, c1) => c1.push (.tree [])
  | (some k, c1) => c1.push ((lookupReg (keyOf k) c1.registers).getD (.tree []))

/-- Machine store from the specification: pop a key, pop a value, bind the
value to the key in the registers.  On stack underflow of the value the
store is skipped (the specification's error model substitutes or skips). -/
def Conf.store (c : Conf) : Conf :=
  match c.pop with
  | (none, c1) => c1
  | (some k, c1) =>
    match c1.pop with
    | (none, c2) => c2
    | (some v, c2) => c2.withRegisters (setReg (keyOf k) v c2.registers)

/-- Index of a list value by a numeric key (zero-based); any other key or
an out-of-range index yields a fresh empty tree (modelled; the
specification's operations are total). -/
def listIndex (l : List RValue) (k : RValue) : RValue :=
  match k with
  | .num q => if q.den = 1 then (l.getD q.num.toNat (.tree [])) else .tree []
  | _ => .tree []

/-- Machine index from the specification: pop a key, pop a container, push
the selected child.  A missing tree key yields a fresh empty tree; the
write-back of that fresh child into the shared container is not observable
under value semantics and is omitted (no verified property depends on it). -/
def Conf.index (c : Conf) : Conf :=
  match c.pop with
  | (none, c1) => c1.push (.tree [])
  | (some k, c1) =>
    match c1.pop with
    | (none, c2) => c2.push (.tree [])
    | (some (.tree t), c2) => c2.push ((lookupReg (keyOf k) t).getD (.tree []))
    | (some (.list l), c2) => c2.push (listIndex l k)
    | (some _, c2) => c2.push (.tree [])

/-- Machine assign from the specification: pop a target reference, pop a
value, overwrite the referenced cell.  Under value semantics the mutation
through the shared reference is not observable from the registers, so the
operation only consumes its two operands (no verified property depends on
the written cell). -/
def Conf.assign (c : Conf) : Conf :=
  match c.pop with
  | (none, c1) => c1
  | (some _, c1) =>
    match c1.pop with
    | (none, c2) => c2
    | (some _, c2) => c2

/-- Machine get_arg at type String, modelled from the specification: pop
and coerce, with the default empty string on a missing or non-string
operand. -/
def Conf.getArgString (c : Conf) : String × Conf :=
  match c.pop with
  | (some (.str s), c1) => (s, c1)
  | (some _, c1) => ("", c1)
  | (none, c1) => ("", c1)

/-- Machine get_arg at type f64, modelled from the specification: pop and
coerce, with the default zero on a missing or non-numeric operand. -/
def Conf.getArgNum (c : Conf) : Rat × Conf :=
  match c.pop with
  | (some (.num q), c1) => (q, c1)
  | (some _, c1) => (0, c1)
  | (none, c1) => (0, c1)

/-- Machine get_arg at list type, modelled from the specification: pop and
coerce, with the default empty list on a missing or non-list operand. -/
def Conf.getArgList (c : Conf) : List RValue × Conf :=
  match c.pop with
  | (some (.list l), c1) => (l, c1)
  | (some _, c1) => ([], c1)
  | (none, c1) => ([], c1)

/-- Replace the current directory of a configuration. -/
def Conf.withDirectory (c : Conf) (d : String) : Conf :=
  { c with shell := { c.shell with directory := d } }

/-- Replace the termination flag of a configuration. -/
def Conf.withIsDone (c : Conf) (b : Bool) : Conf :=
  { c with shell := { c.shell with isDone := b } }

/-- Shell::wd from src/shell.rs: push the current directory string. -/
def Shell.wd (c : Conf) : Conf :=
  c.push (.str c.directory)

/-- Shell::mv from src/shell.rs: rename old to new, both joined onto the
current directory; the host result is ignored.  Note that mv does not
special-case empty path strings. -/
def Shell.mv (c : Conf) (old new : String) : Conf :=
  c.addEvent (.renameFs (pathPush c.directory old) (pathPush c.directory new))

/-- Shell::rm from src/shell.rs: an empty path returns immediately;
otherwise attempt remove_dir_all then remove_file on the joined path, best
effort. -/
def Shell.rm (c : Conf) (path : String) : Conf :=
  if path = "" then c
  else
    (c.addEvent (.removeDirAll (pathPush c.directory path))).addEvent
      (.removeFile (pathPush c.directory path))

/-- Shell::mkdir from src/shell.rs: an empty path returns immediately;
otherwise create_dir_all on the joined path, best effort. -/
def Shell.mkdir (c : Conf) (path : String) : Conf :=
  if path = "" then c
  else c.addEvent (.createDirAll (pathPush c.directory path))

/-- Shell::mkf from src/shell.rs: an empty path returns immediately;
otherwise write an empty file at the joined path, best effort. -/
def Shell.mkf (c : Conf) (path : String) : Conf :=
  if path = "" then c
  else c.addEvent (.writeFile (pathPush c.directory path))

/-- Shell::ls from src/shell.rs: read the target directory (the argument
joined onto the current directory, or the current directory itself) and
push the list of child names; a read failure pushes the empty list, which
the oracle models by returning an empty listing. -/
def Shell.ls (fs : Fs) (c : Conf) (dir : Option String) : Conf :=
  let d := match dir with
    | some d0 => pathPush c.directory d0
    | none => c.directory
  (c.addEvent (.readDir d)).push (.list ((fs.readDir d).map .str))

/-- Shell::cd from src/shell.rs: canonicalise the argument joined onto the
current directory; on success the result becomes the current directory, on
failure the current directory is kept. -/
def Shell.cd (fs : Fs) (c : Conf) (dir : String) : Conf :=
  let c1 := c.addEvent (.canonicalize (pathPush c.directory dir))
  match fs.canonicalize (pathPush c.directory dir) with
  | some d => c1.withDirectory d
  | none => c1

/-- Shell::sh from src/shell.rs: split the command on whitespace and spawn
it when non-empty; the child's result is ignored. -/
def Shell.sh (c : Conf) (cmd : String) : Conf :=
  if ((cmd.split Char.isWhitespace).filter (fun w => w ≠ "")).isEmpty then c
  else c.addEvent (.spawn cmd)

/-- Shell::clear from src/shell.rs: print two hundred newlines. -/
def Shell.clear (c : Conf) : Conf :=
  c.addEvent (.outln (String.mk (List.replicate 200 '\n')))

/-- Shell::exit from src/shell.rs: set the termination flag. -/
def Shell.exit (c : Conf) : Conf :=
  c.withIsDone true

/-- Loop body of Shell::print_stack: pop and print each value, top first. -/
def printStackGo : List RValue → Conf → Conf
  | [], c => c
  | v :: r, c => printStackGo r ((c.withStack r).addEvent (.outln (display v)))

/-- Shell::print_stack from src/shell.rs: pop every value off the stack,
printing each on its own line. -/
def Shell.printStack (c : Conf) : Conf :=
  printStackGo c.stack c

/-- Loop body of Shell::clear_stack: pop until the stack is empty. -/
def clearStackGo : List RValue → Conf → Conf
  | [], c => c
  | _ :: r, c => clearStackGo r (c.withStack r)

/-- Shell::clear_stack from src/shell.rs: pop every remaining value. -/
def Shell.clearStack (c : Conf) : Conf :=
  clearStackGo c.stack c

mutual

/-- Structural equality of runtime values, modelling the derived PartialEq
of xmachine values (outside this repository's sources): numbers, strings,
lists and trees compare structurally; function values never compare equal
(closure identity is not modelled). -/
def beqValue : RValue → RValue → Bool
  | .num a, .num b => a = b
  | .str a, .str b => a = b
  | .list a, .list b => beqValueList a b
  | .tree a, .tree b => beqValueTree a b
  | _, _ => false

/-- Pointwise equality of list values. -/
def beqValueList : List RValue → List RValue → Bool
  | [], [] => true
  | a :: r, b :: s => beqValue a b && beqValueList r s
  | _, _ => false

/-- Pointwise equality of tree entries. -/
def beqValueTree : List (String × RValue) → List (String × RValue) → Bool
  | [], [] => true
  | a :: r, b :: s => (a.1 = b.1 : Bool) && beqValue a.2 b.2 && beqValueTree r s
  | _, _ => false

end

/-- Equality of optional popped values, as compared by the eq and neq host
primitives of src/shell.rs (two empty pops compare equal). -/
def beqOptValue : Option RValue → Option RValue → Bool
  | none, none => true
  | some a, some b => beqValue a b
  | _, _ => false

/-- Addition on runtime values, modelled from the specification (the
xmachine operator impl is outside this repository's sources): numbers add,
strings and lists concatenate, any other combination keeps the first
operand. -/
def valueAdd : RValue → RValue → RValue
  | .num a, .num b => .num (a + b)
  | .str a, .str b => .str (a ++ b)
  | .list a, .list b => .list (a ++ b)
  | a, _ => a

/-- Subtraction on runtime values, modelled from the specification:
defined on numbers, any other combination keeps the first operand. -/
def valueSub : RValue → RValue → RValue
  | .num a, .num b => .num (a - b)
  | a, _ => a

/-- Multiplication on runtime values, modelled from the specification. -/
def valueMul : RValue → RValue → RValue
  | .num a, .num b => .num (a * b)
  | a, _ => a

/-- Division on runtime values, modelled from the specification over
rationals (division by zero yields zero rather than an IEEE infinity; no
verified property exercises it). -/
def valueDiv : RValue → RValue → RValue
  | .num a, .num b => .num (a / b)
  | a, _ => a

/-- Remainder on runtime values, modelled from the specification. -/
def valueRem : RValue → RValue → RValue
  | .num a, .num b => .num (a - b * (a / b).floor)
  | a, _ => a

/-- Logical negation of a runtime value, modelling the xmachine Not
operator through the specification's truthiness coercion. -/
def valueNot (v : RValue) : RValue :=
  .num (if truthy v then 0 else 1)

/-- Machine-level push, as used while constructing the initial machine. -/
def Machine.push (m : Machine) (v : RValue) : Machine :=
  { m with stack := v :: m.stack }

/-- Machine-level store, as used while constructing the initial machine:
pop a key, pop a value, bind it; underflow skips. -/
def Machine.store (m : Machine) : Machine :=
  match m.stack with
  | [] => m
  | [_] => { m with stack := [] }
  | k :: v :: r => { stack := r, registers := setReg (keyOf k) v m.registers }

/-- add_fn from src/shell.rs: push a host function, push its name, store. -/
def addFn (g : HostFn) (name : String) (m : Machine) : Machine :=
  ((m.push (.func (.host g))).push (.str name)).store

/-- add_const from src/shell.rs: push a constant, push its name, store. -/
def addConst (v : RValue) (name : String) (m : Machine) : Machine :=
  ((m.push v).push (.str name)).store

/-- machine() from src/shell.rs: the machine handed to a fresh shell, with
the constants true and false and the host primitives registered in source
order. -/
def machineInit : Machine :=
  { stack := [], registers := [] }
  |> addConst (.num 1) "true"
  |> addConst (.num 0) "false"
  |> addFn .print "print"
  |> addFn .println "println"
  |> addFn .dict "dict"
  |> addFn .mapF "map"
  |> addFn .notF "not"
  |> addFn .eq "eq"
  |> addFn .neq "neq"
  |> addFn .gt "gt"
  |> addFn .lt "lt"
  |> addFn .le "le"
  |> addFn .ge "ge"
  |> addFn .add "add"
  |> addFn .sub "sub"
  |> addFn .mul "mul"
  |> addFn .div "div"
  |> addFn .rem "rem"
  |> addFn .inputF "input"
  |> addFn .evalF "eval"
  |> addFn .help "help"
  |> addFn .debug "debug"
  |> addFn .info "info"
  |> addFn .logo "logo"

/-- Shell::new from src/shell.rs: home directory, fresh machine, not done. -/
def Shell.new (fs : Fs) : Shell :=
  { directory := fs.home, machine := machineInit, isDone := false }

/-- Result type of a parse attempt: the parsed value and the unconsumed
suffix, or failure. -/
def ParserC (α : Type) : Type :=
  List Char → Option (α × List Char)

/-- Parser that always fails (a grammar parser out of recursion fuel). -/
def pfail {α : Type} : ParserC α :=
  fun _ => none

/-- Map over a parse result, modelling the honeycomb - combinator. -/
def pmap {α β : Type} (g : α → β) (p : ParserC α) : ParserC β :=
  fun inp => (p inp).map (fun r => (g r.1, r.2))

/-- Sequencing, modelling the honeycomb combinator for two parsers in a
row: both must succeed, the pair of results is returned. -/
def pthen {α β : Type} (p : ParserC α) (q : ParserC β) : ParserC (α × β) :=
  fun inp =>
    match p inp with
    | none => none
    | some (a, r) =>
      match q r with
      | none => none
      | some (b, r2) => some ((a, b), r2)

/-- Sequencing keeping the left result. -/
def pleft {α β : Type} (p : ParserC α) (q : ParserC β) : ParserC α :=
  pmap Prod.fst (pthen p q)

/-- Sequencing keeping the right result. -/
def pright {α β : Type} (p : ParserC α) (q : ParserC β) : ParserC β :=
  pmap Prod.snd (pthen p q)

/-- Ordered choice, modelling the honeycomb alternation: the second
alternative runs from the same position only when the first fails.
Because parsers are pure functions of the input suffix, failure inside a
later sequence step backtracks to the enclosing alternation, which is the
unlimited backtracking the specification describes. -/
def por {α : Type} (p q : ParserC α) : ParserC α :=
  fun inp =>
    match p inp with
    | some r => some r
    | none => q inp

/-- Optional parser, modelling the honeycomb opt combinator. -/
def popt {α : Type} (p : ParserC α) : ParserC (Option α) :=
  fun inp =>
    match p inp with
    | some (a, r) => some (some a, r)
    | none => some (none, inp)

/-- Whitespace characters accepted between tokens. -/
def isWsChar (ch : Char) : Bool :=
  ch = ' ' || ch = '\n' || ch = '\t' || ch = '\r'

/-- Drop leading whitespace. -/
def dropWs (inp : List Char) : List Char :=
  inp.dropWhile isWsChar

/-- Optional-whitespace parser, modelling the honeycomb space atom. -/
def pspace : ParserC Unit :=
  fun inp => some ((), dropWs inp)

/-- Single-symbol parser, modelling the honeycomb sym atom: match one
exact character with no whitespace handling. -/
def psym (ch : Char) : ParserC Char :=
  fun inp =>
    match inp with
    | c0 :: r => if c0 = ch then some (ch, r) else none
    | [] => none

/-- Match an exact character sequence, returning the rest. -/
def matchChars : List Char → List Char → Option (List Char)
  | [], inp => some inp
  | ch :: cs, c0 :: r => if c0 = ch then matchChars cs r else none
  | _ :: _, [] => none

/-- Keyword parser, modelling the honeycomb seq_no_ws atom: skip leading
whitespace, then match the literal character sequence. -/
def pseqNoWs (s : String) : ParserC Unit :=
  fun inp => (matchChars s.toList (dropWs inp)).map (fun r => ((), r))

/-- End-of-input parser, modelling the honeycomb eof atom; trailing
whitespace is accepted, as the specification requires of a program. -/
def peof : ParserC Unit :=
  fun inp => if (dropWs inp).isEmpty then some ((), []) else none

/-- First character of an identifier: a letter or an underscore. -/
def isIdentStart (ch : Char) : Bool :=
  ch.isAlpha || ch = '_'

/-- Later character of an identifier: alphanumeric or underscore. -/
def isIdentChar (ch : Char) : Bool :=
  ch.isAlphanum || ch = '_'

/-- Raw identifier parser, modelling the honeycomb identifier atom with
the character classes the specification gives. -/
def pidentRaw : ParserC String :=
  fun inp =>
    match inp with
    | c0 :: r =>
      if isIdentStart c0 then
        some (String.mk (c0 :: r.takeWhile isIdentChar), r.dropWhile isIdentChar)
      else none
    | [] => none

/-- Translation of a backslash escape inside a string literal (modelled;
the specification defers to the utility layer). -/
def escChar (ch : Char) : Char :=
  if ch = 'n' then '\n' else if ch = 't' then '\t' else ch

/-- Body of a double-quoted string after the opening quote: characters up
to the closing quote, with backslash escapes. -/
def stringBody : List Char → Option (List Char × List Char)
  | [] => none
  | '"' :: r => some ([], r)
  | '\\' :: ch :: r => (stringBody r).map (fun pr => (escChar ch :: pr.1, pr.2))
  | ch :: r => (stringBody r).map (fun pr => (ch :: pr.1, pr.2))

/-- Raw string-literal parser, modelling the honeycomb string atom. -/
def pstringRaw : ParserC String :=
  fun inp =>
    match inp with
    | '"' :: r => (stringBody r).map (fun pr => (String.mk pr.1, pr.2))
    | _ => none

/-- Numeric value of a digit sequence. -/
def digitsToNat : List Char → Nat :=
  List.foldl (fun acc ch => acc * 10 + (ch.toNat - 48)) 0

/-- Raw number parser with optional sign and fractional part, modelling
the honeycomb number atom composed with to_number. -/
def pnumberRaw : ParserC Rat :=
  fun inp =>
    let signed : Bool × List Char :=
      match inp with
      | '-' :: r => (true, r)
      | _ => (false, inp)
    match signed.2 with
    | c0 :: _ =>
      if c0.isDigit then
        let ipart : Rat := (digitsToNat (signed.2.takeWhile Char.isDigit) : Nat)
        let rest := signed.2.dropWhile Char.isDigit
        let contd : Rat × List Char :=
          match rest with
          | '.' :: r2 =>
            match r2 with
            | d2 :: _ =>
              if d2.isDigit then
                let fs := r2.takeWhile Char.isDigit
                (ipart + (digitsToNat fs : Nat) / ((10 : Rat) ^ fs.length),
                  r2.dropWhile Char.isDigit)
              else (ipart, rest)
            | [] => (ipart, rest)
          | _ => (ipart, rest)
        some ((if signed.1 then -contd.1 else contd.1), contd.2)
      else none
    | [] => none

/-- string_literal from src/parser.rs: a string literal between optional
whitespace. -/
def stringLiteral : ParserC Literal :=
  pmap Literal.str (pright pspace (pleft pstringRaw pspace))

/-- number_literal from src/parser.rs: a number literal between optional
whitespace. -/
def numberLiteral : ParserC Literal :=
  pmap Literal.num (pright pspace (pleft pnumberRaw pspace))

/-- literal from src/parser.rs: a string or number literal as a value. -/
def literalValue : ParserC ValueAst :=
  pmap ValueAst.literal (por stringLiteral numberLiteral)

/-- builtin from src/parser.rs: the reserved keywords, tried in source
order, each yielding its built-in value. -/
def builtinValue : ParserC ValueAst :=
  pmap ValueAst.builtin
    (por (pmap (fun _ => BuiltinOp.list) (pseqNoWs "ls"))
      (por (pmap (fun _ => BuiltinOp.move) (pseqNoWs "mv"))
        (por (pmap (fun _ => BuiltinOp.changeDir) (pseqNoWs "cd"))
          (por (pmap (fun _ => BuiltinOp.remove) (pseqNoWs "rm"))
            (por (pmap (fun _ => BuiltinOp.makeDir) (pseqNoWs "mkdir"))
              (por (pmap (fun _ => BuiltinOp.makeFile) (pseqNoWs "mkf"))
                (por (pmap (fun _ => BuiltinOp.workingDir) (pseqNoWs "pwd"))
                  (pmap (fun _ => BuiltinOp.exit) (pseqNoWs "exit")))))))))

/-- ident from src/parser.rs: an identifier between optional whitespace. -/
def ident : ParserC Identifier :=
  pmap Identifier.mk (pright pspace (pleft pidentRaw pspace))

/-- comment from src/parser.rs: a hash up to the next newline. -/
def comment : ParserC Unit :=
  fun inp =>
    match pseqNoWs "#" inp with
    | none => none
    | some (_, r) => some ((), r.dropWhile (fun ch => ch ≠ '\n'))

/-- Greedy repetition, modelling the honeycomb zero-or-more combinator.
The fuel argument bounds the number of iterations; every property below
quantifies over the fuel. -/
def pmany {α : Type} : Nat → ParserC α → ParserC (List α)
  | 0, _ => fun inp => some ([], inp)
  | f + 1, p =>
    fun inp =>
      match p inp with
      | none => some ([], inp)
      | some (a, r) =>
        match pmany f p r with
        | some (l, r2) => some (a :: l, r2)
        | none => some ([a], r)

/-- Greedy one-or-more repetition, modelling the honeycomb combinator. -/
def pmany1 {α : Type} (f : Nat) (p : ParserC α) : ParserC (List α) :=
  pmap (fun pr => pr.1 :: pr.2) (pthen p (pmany f p))

/-- Comma-separated possibly-empty element list. -/
def psepByComma {α : Type} (f : Nat) (p : ParserC α) : ParserC (List α) :=
  fun inp =>
    match p inp with
    | none => some ([], inp)
    | some (a, r) =>
      match pmany f (pright (pseqNoWs ",") p) r with
      | some (l, r2) => some (a :: l, r2)
      | none => some ([a], r)

/-- Delimited comma-separated list, modelling the honeycomb array
combinator used for call arguments and parameter lists. -/
def parray {α : Type} (f : Nat) (opn cls : String) (p : ParserC α) : ParserC (List α) :=
  pright (pseqNoWs opn) (pleft (psepByComma f p) (pseqNoWs cls))

mutual

/-- Head values accepted by dotted and indexed names in src/parser.rs: a
group, a literal, or an identifier read as a simple name. -/
def nameHeads : Nat → ParserC ValueAst
  | 0 => pfail
  | f + 1 =>
    por (group f)
      (por literalValue (pmap (fun id => ValueAst.name (NameAst.name id)) ident))

/-- name from src/parser.rs: a dotted name, then an indexed name, then a
plain identifier, in that order. -/
def name : Nat → ParserC NameAst
  | 0 => pfail
  | f + 1 =>
    por
      (pmap (fun pr => NameAst.dotName pr.1 pr.2)
        (pthen (nameHeads f) (pmany1 f (pright (psym '.') ident))))
      (por
        (pmap (fun pr => NameAst.indexName pr.1 pr.2)
          (pthen (nameHeads f)
            (pmany1 f (pright (pseqNoWs "[") (pleft (value f) (pseqNoWs "]"))))))
        (pmap NameAst.name ident))

/-- fncall from src/parser.rs: a built-in juxtaposed with one or more
argument values, or any callee (built-in, name or group) applied to a
parenthesised comma-separated argument list. -/
def fncall : Nat → ParserC ValueAst
  | 0 => pfail
  | f + 1 =>
    por
      (pmap (fun pr => ValueAst.fnCall (.mk pr.1 pr.2))
        (pthen builtinValue (pmany1 f (value f))))
      (pmap (fun pr => ValueAst.fnCall (.mk pr.1 pr.2))
        (pthen
          (por builtinValue (por (pmap ValueAst.name (name f)) (group f)))
          (parray f "(" ")" (value f))))

/-- function from src/parser.rs: fn, a parenthesised parameter list, and a
suite. -/
def function : Nat → ParserC FunctionAst
  | 0 => pfail
  | f + 1 =>
    pmap (fun pr => FunctionAst.mk pr.1 pr.2)
      (pright (pseqNoWs "fn") (pthen (parray f "(" ")" ident) (suite f)))

/-- function_def from src/parser.rs: fn, a name, a parameter list and a
suite. -/
def functionDef : Nat → ParserC FunctionDef
  | 0 => pfail
  | f + 1 =>
    pmap (fun pr => FunctionDef.mk pr.1 (FunctionAst.mk pr.2.1 pr.2.2))
      (pright (pseqNoWs "fn")
        (pthen (name f) (pthen (parray f "(" ")" ident) (suite f))))

/-- group from src/parser.rs: a parenthesised value. -/
def group : Nat → ParserC ValueAst
  | 0 => pfail
  | f + 1 => pright (pseqNoWs "(") (pleft (value f) (pseqNoWs ")"))

/-- recursive_value from src/parser.rs: function literal, function call,
built-in, name, group, in that order. -/
def recursiveValue : Nat → ParserC ValueAst
  | 0 => pfail
  | f + 1 =>
    por (pmap ValueAst.function (function f))
      (por (fncall f)
        (por builtinValue (por (pmap ValueAst.name (name f)) (group f))))

/-- value from src/parser.rs: a recursive value, else a literal. -/
def value : Nat → ParserC ValueAst
  | 0 => pfail
  | f + 1 => por (recursiveValue f) literalValue

/-- assignment from src/parser.rs: a name, an equals sign and a value. -/
def assignment : Nat → ParserC Expr
  | 0 => pfail
  | f + 1 =>
    pmap (fun pr => Expr.assignment pr.1 pr.2)
      (pthen (name f) (pright (pseqNoWs "=") (value f)))

/-- while_loop from src/parser.rs: the while keyword, a condition value
and a body suite. -/
def whileLoop : Nat → ParserC Expr
  | 0 => pfail
  | f + 1 =>
    pmap (fun pr => Expr.whileLoop pr.1 pr.2)
      (pthen (pright (pseqNoWs "while") (value f)) (suite f))

/-- if_then_else from src/parser.rs: condition, then-suite, optional
else-suite defaulting to the empty suite. -/
def ifThenElse : Nat → ParserC Expr
  | 0 => pfail
  | f + 1 =>
    pmap (fun pr => Expr.ifThenElse pr.1.1 pr.1.2 (pr.2.getD (Suite.mk [])))
      (pthen (pthen (pright (pseqNoWs "if") (value f)) (suite f))
        (popt (pright (pseqNoWs "else") (suite f))))

/-- expr from src/parser.rs: optional comments, then assignment, while,
if-else, function definition or a bare value (assignment and value accept
an optional trailing semicolon), then optional comments. -/
def expr : Nat → ParserC Expr
  | 0 => pfail
  | f + 1 =>
    pright (popt (pmany f comment))
      (pleft
        (por (pleft (assignment f) (popt (pseqNoWs ";")))
          (por (whileLoop f)
            (por (ifThenElse f)
              (por (pmap Expr.functionDef (functionDef f))
                (pleft (pmap Expr.value (value f)) (popt (pseqNoWs ";")))))))
        (popt (pmany f comment)))

/-- suite from src/parser.rs: a brace-enclosed expression sequence. -/
def suite : Nat → ParserC Suite
  | 0 => pfail
  | f + 1 =>
    pmap Suite.mk
      (pright (pseqNoWs "\x7b") (pleft (pmany f (expr f)) (pseqNoWs "\x7d")))

end

/-- program from src/parser.rs: a sequence of expressions followed by end
of input. -/
def program : Nat → ParserC Suite
  | 0 => pfail
  | f + 1 => pleft (pmap Suite.mk (pmany f (expr f))) peof

/-- Expressions of a suite. -/
def Suite.es : Suite → List Expr
  | .mk es => es

/-- Display form of an optionally popped value: a missing value prints as
the empty string, as in the print and println primitives of src/shell.rs. -/
def dispOpt : Option RValue → String
  | some v => display v
  | none => ""

/-- Condition test shared by the while and if arms of Expr::execute in
src/tokens.rs: pop, coerce to bool, with false on an empty stack. -/
def popBool (c : Conf) : Bool × Conf :=
  match c.pop with
  | (some v, c1) => (truthy v, c1)
  | (none, c1) => (false, c1)

/-- Parameter binding loop of the function closure in src/tokens.rs: for
each declared parameter in order, push its name and store, so that each
parameter pops the next value off the stack. -/
def bindParams : List Identifier → Conf → Conf
  | [], c => c
  | id :: r, c => bindParams r ((c.push (.str id.name)).store)

/-- Path walk of Name::DotName in src/tokens.rs: for each identifier in
order, push its name and index. -/
def dotPath : List Identifier → Conf → Conf
  | [], c => c
  | id :: r, c => dotPath r ((c.push (.str id.name)).index)

/-- Builtin::execute from src/tokens.rs: each built-in pops its operands
and dispatches to the corresponding Shell method. -/
def execBuiltin (fs : Fs) (b : BuiltinOp) (c : Conf) : Conf :=
  match b with
  | .clear => Shell.clear c
  | .list =>
    match c.pop with
    | (v, c1) => Shell.ls fs c1 (v.map display)
  | .changeDir =>
    match c.getArgString with
    | (a, c1) => Shell.cd fs c1 a
  | .move =>
    match c.getArgString with
    | (old, c1) =>
      match c1.getArgString with
      | (nw, c2) => Shell.mv c2 old nw
  | .remove =>
    match c.getArgString with
    | (p, c1) => Shell.rm c1 p
  | .makeDir =>
    match c.getArgString with
    | (p, c1) => Shell.mkdir c1 p
  | .makeFile =>
    match c.getArgString with
    | (p, c1) => Shell.mkf c1 p
  | .shellOut =>
    match c.getArgString with
    | (a, c1) => Shell.sh c1 a
  | .workingDir => Shell.wd c
  | .exit => Shell.exit c

mutual

/-- Value::execute from src/tokens.rs, with the FnCall::execute arm
inlined: a function call reverses its argument list, executes the reversed
arguments in that order, executes the callee, and then invokes the machine
call operation unless the callee is a built-in (whose handler has already
consumed its operands).  The fuel argument bounds recursion depth; fuel
zero fails, and every recursive step passes one less. -/
def execValue (fs : Fs) : Nat → ValueAst → Conf → Option Conf
  | 0, _, _ => none
  | f + 1, v, c =>
    match v with
    | .name n => execName fs f n c
    | .literal (.str s) => some (c.push (.str s))
    | .literal (.num q) => some (c.push (.num q))
    | .fnCall (.mk callee args) =>
      (execValues fs f args.reverse c).bind (fun c1 =>
        (execValue fs f callee c1).bind (fun c2 =>
          match callee with
          | .builtin _ => some c2
          | _ => execCall fs f c2))
    | .builtin b => some (execBuiltin fs b c)
    | .function (.mk ps body) => some (c.push (.func (.user ps body)))

/-- Sequential execution of a value list, as in the argument loop of
FnCall::execute in src/tokens.rs. -/
def execValues (fs : Fs) : Nat → List ValueAst → Conf → Option Conf
  | 0, _, _ => none
  | _ + 1, [], c => some c
  | f + 1, v :: r, c => (execValue fs f v c).bind (execValues fs f r)

/-- Name::execute from src/tokens.rs: an identifier pushes its name and
loads; a dotted name executes its head then walks the identifier path; an
indexed name executes its head then each index value followed by the index
operation. -/
def execName (fs : Fs) : Nat → NameAst → Conf → Option Conf
  | 0, _, _ => none
  | f + 1, n, c =>
    match n with
    | .name id => some ((c.push (.str id.name)).load)
    | .dotName head ids => (execValue fs f head c).map (dotPath ids)
    | .indexName head vals => (execValue fs f head c).bind (execIndexPath fs f vals)

/-- Index-path walk of Name::IndexName in src/tokens.rs: execute each
index value in order, following each with the index operation. -/
def execIndexPath (fs : Fs) : Nat → List ValueAst → Conf → Option Conf
  | 0, _, _ => none
  | _ + 1, [], c => some c
  | f + 1, v :: r, c => (execValue fs f v c).bind (fun c1 => execIndexPath fs f r c1.index)

/-- Expr::execute from src/tokens.rs: assignment to an identifier stores
through the registers, assignment to a dotted or indexed name executes the
name and assigns through the reference; while re-executes the condition
before every iteration; if-then-else tests the condition once; a function
definition executes exactly as the assignment of the function value to its
name; a bare value executes itself. -/
def execExpr (fs : Fs) : Nat → Expr → Conf → Option Conf
  | 0, _, _ => none
  | f + 1, e, c =>
    match e with
    | .assignment (.name id) v =>
      (execValue fs f v c).map (fun c1 => (c1.push (.str id.name)).store)
    | .assignment n v =>
      (execValue fs f v c).bind (fun c1 => (execName fs f n c1).map Conf.assign)
    | .whileLoop cond body =>
      (execValue fs f cond c).bind (fun c1 =>
        match popBool c1 with
        | (true, c2) =>
          (execExprs fs f body.es c2).bind (execExpr fs f (.whileLoop cond body))
        | (false, c2) => some c2)
    | .ifThenElse cond tb eb =>
      (execValue fs f cond c).bind (fun c1 =>
        match popBool c1 with
        | (true, c2) => execExprs fs f tb.es c2
        | (false, c2) => execExprs fs f eb.es c2)
    | .functionDef (.mk n fn) => execExpr fs f (.assignment n (.function fn)) c
    | .value v => execValue fs f v c

/-- Suite::execute from src/tokens.rs: execute each expression in order. -/
def execExprs (fs : Fs) : Nat → List Expr → Conf → Option Conf
  | 0, _, _ => none
  | _ + 1, [], c => some c
  | f + 1, e :: r, c => (execExpr fs f e c).bind (execExprs fs f r)

/-- Machine call operation, modelled from the specification together with
the closure built by Function::execute in src/tokens.rs: pop the callee
value; a user function runs its body against a freshly constructed shell
whose machine receives the caller's stack and register tree, after binding
each declared parameter by popping; on return the callee's final stack
(and, through reference sharing, its register tree) is published back to
the caller, whose directory and termination flag are untouched; a host
primitive runs directly on the caller's machine; calling a non-function
value is a no-op. -/
def execCall (fs : Fs) : Nat → Conf → Option Conf
  | 0, _ => none
  | f + 1, c =>
    match c.pop with
    | (none, c1) => some c1
    | (some v, c1) =>
      match v with
      | .func (.user ps (Suite.mk es)) =>
        (execExprs fs f es
            (bindParams ps
              { shell :=
                  { directory := fs.home
                    machine := { stack := c1.stack, registers := c1.registers }
                    isDone := false }
                world := c1.world })).map (fun cf =>
          { shell :=
              { directory := c1.directory
                machine := { stack := cf.stack, registers := cf.registers }
                isDone := c1.isDone }
            world := cf.world })
      | .func (.host h) => execHost fs f h c1
      | _ => some c1

/-- Host primitives from the machine() constructor of src/shell.rs, each
reading its operands from the stack exactly as its Rust closure does. -/
def execHost (fs : Fs) : Nat → HostFn → Conf → Option Conf
  | 0, _, _ => none
  | f + 1, h, c =>
    match h with
    | .print =>
      match c.pop with
      | (v, c1) => some (c1.addEvent (.out (dispOpt v)))
    | .println =>
      match c.pop with
      | (v, c1) => some (c1.addEvent (.outln (dispOpt v)))
    | .dict => some (c.push (.tree []))
    | .mapF =>
      match c.pop with
      | (fOpt, c1) =>
        match c1.getArgList with
        | (l, c2) => execMapLoop fs f (fOpt.getD (.func (.host .noop))) l c2
    | .notF =>
      match c.pop with
      | (none, c1) => some c1
      | (some a, c1) => some (c1.push (valueNot a))
    | .eq =>
      match c.pop with
      | (a, c1) =>
        match c1.pop with
        | (b, c2) => some (c2.push (.num (if beqOptValue a b then 1 else 0)))
    | .neq =>
      match c.pop with
      | (a, c1) =>
        match c1.pop with
        | (b, c2) => some (c2.push (.num (if beqOptValue a b then 0 else 1)))
    | .gt =>
      match c.getArgNum with
      | (a, c1) =>
        match c1.getArgNum with
        | (b, c2) => some (c2.push (.num (if a > b then 1 else 0)))
    | .lt =>
      match c.getArgNum with
      | (a, c1) =>
        match c1.getArgNum with
        | (b, c2) => some (c2.push (.num (if a < b then 1 else 0)))
    | .le =>
      match c.getArgNum with
      | (a, c1) =>
        match c1.getArgNum with
        | (b, c2) => some (c2.push (.num (if a ≤ b then 1 else 0)))
    | .ge =>
      match c.getArgNum with
      | (a, c1) =>
        match c1.getArgNum with
        | (b, c2) => some (c2.push (.num (if a ≥ b then 1 else 0)))
    | .add =>
      match c.pop with
      | (none, c1) => some c1
      | (some a, c1) =>
        match c1.pop with
        | (none, c2) => some c2
        | (some b, c2) => some (c2.push (valueAdd a b))
    | .sub =>
      match c.pop with
      | (none, c1) => some c1
      | (some a, c1) =>
        match c1.pop with
        | (none, c2) => some c2
        | (some b, c2) => some (c2.push (valueSub a b))
    | .mul =>
      match c.pop with
      | (none, c1) => some c1
      | (some a, c1) =>
        match c1.pop with
        | (none, c2) => some c2
        | (some b, c2) => some (c2.push (valueMul a b))
    | .div =>
      match c.pop with
      | (none, c1) => some c1
      | (some a, c1) =>
        match c1.pop with
        | (none, c2) => some c2
        | (some b, c2) => some (c2.push (valueDiv a b))
    | .rem =>
      match c.pop with
      | (none, c1) => some c1
      | (some a, c1) =>
        match c1.pop with
        | (none, c2) => some c2
        | (some b, c2) => some (c2.push (valueRem a b))
    | .inputF =>
      match c.pop with
      | (v, c1) =>
        match (c1.addEvent (.out (dispOpt v))).world.stdin with
        | [] => some ((c1.addEvent (.out (dispOpt v))).push (.str ""))
        | line :: rest =>
          some
            (({ c1.addEvent (.out (dispOpt v)) with
                  world := { events := (c1.addEvent (.out (dispOpt v))).world.events
                             stdin := rest } }).push (.str line.trim))
    | .evalF =>
      match c.pop with
      | (none, c1) => some c1
      | (some v, c1) =>
        match program ((display v).toList.length + 2) (display v).toList with
        | some (Suite.mk es, _) =>
          (execExprs fs f es { shell := Shell.new fs, world := c1.world }).map
            (fun cf =>
              { shell := c1.shell
                world := (Shell.clearStack (Shell.printStack cf)).world })
        | none => some (c1.addEvent .parseErr)
    | .help => some ((c.addEvent .infoDump).addEvent .machineDump)
    | .debug => some ((c.addEvent .infoDump).addEvent .machineDump)
    | .info => some ((c.addEvent .infoDump).addEvent .machineDump)
    | .logo => some ((c.addEvent .infoDump).addEvent .logoDump)
    | .noop => some c

/-- Iteration of the map primitive from src/shell.rs: for each list item,
push the item, push the function, call. -/
def execMapLoop (fs : Fs) : Nat → RValue → List RValue → Conf → Option Conf
  | 0, _, _, _ => none
  | _ + 1, _, [], c => some c
  | f + 1, fv, item :: r, c =>
    (execCall fs f ((c.push item).push fv)).bind (execMapLoop fs f fv r)

end

/-- Callee phase of FnCall::execute in src/tokens.rs, taken at the point
where every argument has already been executed: execute the callee and
then invoke the machine call operation unless the callee is a built-in. -/
def fnCallTail (fs : Fs) (f : Nat) (callee : ValueAst) (c : Conf) : Option Conf :=
  (execValue fs f callee c).bind (fun c2 =>
    match callee with
    | .builtin _ => some c2
    | _ => execCall fs f c2)

/-- Prepend a list of values on top of the stack of a configuration, the
head of the list ending on top. -/
def stackPrepend (vs : List RValue) (c : Conf) : Conf :=
  c.withStack (vs ++ c.stack)

/-- Stack drain performed by Shell::run in src/shell.rs after a program is
executed: print the stack, then clear any residue. -/
def replFinish (c : Conf) : Conf :=
  Shell.clearStack (Shell.printStack c)

/-- One successful REPL submission from Shell::run in src/shell.rs:
execute the parsed program, then print and clear the stack. -/
def replSubmit (fs : Fs) (f : Nat) (es : List Expr) (c : Conf) : Option Conf :=
  (execExprs fs f es c).map replFinish

/-- Big-step evaluation relation for a single expression: execution
reaches the given result at some recursion fuel.  The fuel only bounds the
modelled recursion depth, so this is the fuel-independent meaning of an
execution. -/
def evalExprTo (fs : Fs) (e : Expr) (c r : Conf) : Prop :=
  ∃ f, execExpr fs f e c = some r

/-- Divergence of a single expression: no recursion fuel suffices, which
in the fuel model is exactly non-termination of the source loop. -/
def divergesExpr (fs : Fs) (e : Expr) (c : Conf) : Prop :=
  ∀ f, execExpr fs f e c = none

/-- Append a batch of events to the trace of a configuration, leaving the
rest of the state untouched. -/
def addEvents (es : List Event) (c : Conf) : Conf :=
  { c with world := { c.world with events := c.world.events ++ es } }

/-- Host oracle on which every canonicalize call fails; its home directory
is /home. -/
def fsNone : Fs :=
  { canonicalize := fun _ => none, readDir := fun _ => [], home := "/home" }

/-- Host oracle on which every canonicalize call resolves to /resolved. -/
def fsSome : Fs :=
  { canonicalize := fun _ => some "/resolved", readDir := fun _ => [], home := "/home" }

/-- Initial configuration of the REPL on the failing oracle: a fresh shell
with an empty event trace and no pending stdin. -/
def conf0 : Conf :=
  { shell := Shell.new fsNone, world := { events := [], stdin := [] } }

/-- Source form println(s): a call of the println host primitive on one
string literal. -/
def plnCall (s : String) : ValueAst :=
  .fnCall (.mk (.name (.name (Identifier.mk "println"))) [.literal (.str s)])

/-- Source form exit(): a parenthesised call of the exit built-in with no
arguments. -/
def exitCall : ValueAst :=
  .fnCall (.mk (.builtin .exit) [])

/-- Source form of the program while 1 \x7b exit() \x7d. -/
def while1exit : Expr :=
  .whileLoop (.literal (.num 1)) (.mk [.value exitCall])

/-- Popping immediately after a push returns the pushed value and restores
the configuration. -/
theorem pop_push (c : Conf) (v : RValue) : (c.push v).pop = (some v, c) := rfl

/-- The print loop of Shell::print_stack leaves the registers alone and,
when started on the configuration's own stack, drains it completely. -/
theorem printStackGo_spec :
    ∀ (l : List RValue) (c : Conf), c.stack = l →
      (printStackGo l c).stack = [] ∧ (printStackGo l c).registers = c.registers := by
  intro l
  induction l with
  | nil =>
    intro c h
    exact ⟨h, rfl⟩
  | cons v r ih =>
    intro c h
    have := ih ((c.withStack r).addEvent (.outln (display v))) rfl
    exact ⟨this.1, this.2⟩

/-- The clear loop of Shell::clear_stack leaves the registers alone and,
when started on the configuration's own stack, drains it completely. -/
theorem clearStackGo_spec :
    ∀ (l : List RValue) (c : Conf), c.stack = l →
      (clearStackGo l c).stack = [] ∧ (clearStackGo l c).registers = c.registers := by
  intro l
  induction l with
  | nil =>
    intro c h
    exact ⟨h, rfl⟩
  | cons v r ih =>
    intro c h
    have := ih (c.withStack r) rfl
    exact ⟨this.1, this.2⟩

/-- The joint drain of Shell::run (print_stack then clear_stack) empties
the stack and preserves the registers. -/
theorem replFinish_spec (c : Conf) :
    (replFinish c).stack = [] ∧ (replFinish c).registers = c.registers := by
  have hp := printStackGo_spec c.stack c rfl
  have hc := clearStackGo_spec (Shell.printStack c).stack (Shell.printStack c) rfl
  exact ⟨hc.1, hc.2.trans hp.2⟩

/-- Executing while 1 with the body exit() never succeeds at any fuel:
every iteration restores the same situation (the condition pushes 1 again
and exit only sets a flag the while executor never consults), so the fuel
is always exhausted. -/
theorem while1exit_none (fs : Fs) :
    ∀ (f : Nat) (c : Conf), execExpr fs f while1exit c = none := by
  intro f
  induction f with
  | zero => intro c; rfl
  | succ g ih =>
    intro c
    cases g with
    | zero => rfl
    | succ h =>
      have h1 : execValue fs (h + 1) (.literal (.num 1)) c = some (c.push (.num 1)) := rfl
      have h2 : popBool (c.push (.num 1)) = (true, c) := rfl
      simp only [while1exit] at ih ⊢
      rw [execExpr, h1]
      simp only [Option.some_bind]
      rw [h2]
      cases hres : execExprs fs (h + 1) (Suite.es (.mk [.value exitCall])) c with
      | none => simp [hres]
      | some c3 => simp [hres, ih c3]

/-- Executing a list of argument expressions in sequence, when each of
them deterministically pushes one value, prepends the value of the last
executed argument on top. -/
theorem execValues_pushes (fs : Fs) :
    ∀ (l : List (ValueAst × RValue)) (F : Nat) (c : Conf),
      (∀ p ∈ l, ∀ (g : Nat) (c2 : Conf), execValue fs (g + 1) p.1 c2 = some (c2.push p.2)) →
      l.length < F →
      execValues fs F (l.map Prod.fst) c = some (stackPrepend (l.map Prod.snd).reverse c) := by
  intro l
  induction l with
  | nil =>
    intro F c hp hF
    obtain ⟨f, rfl⟩ : ∃ f, F = f + 1 := ⟨F - 1, by omega⟩
    rfl
  | cons p r ih =>
    intro F c hp hF
    obtain ⟨g, rfl⟩ : ∃ g, F = g + 1 + 1 := ⟨F - 2, by simp at hF; omega⟩
    rw [List.map_cons, execValues, hp p (by simp) g c]
    simp only [Option.some_bind]
    rw [ih (g + 1) (c.push p.2) (fun q hq => hp q (by simp [hq])) (by simp at hF ⊢; omega)]
    congr 1
    simp [stackPrepend, Conf.push, Conf.withStack, Conf.stack]

/-- Claim C1: in a function call, the arguments are pushed in reverse
source order, so that at callee entry (the point where FnCall::execute
executes the callee and, for a non-built-in callee, issues the machine
call) the value of the first argument is on top of the stack, the second
beneath it, and the last deepest.  The hypothesis says each argument
expression deterministically pushes a single value, which fixes the values
the claim speaks about. -/
theorem c1_argument_order (fs : Fs) (pairs : List (ValueAst × RValue)) (callee : ValueAst)
    (F : Nat) (c : Conf)
    (hpush : ∀ p ∈ pairs, ∀ (g : Nat) (c2 : Conf), execValue fs (g + 1) p.1 c2 = some (c2.push p.2))
    (hF : pairs.length < F) :
    execValue fs (F + 1) (.fnCall (.mk callee (pairs.map Prod.fst))) c =
      fnCallTail fs F callee (stackPrepend (pairs.map Prod.snd) c) := by
  rw [execValue]
  have hrev : (pairs.map Prod.fst).reverse = pairs.reverse.map Prod.fst :=
    (List.map_reverse _ _).symm
  rw [hrev,
    execValues_pushes fs pairs.reverse F c
      (fun p hp => hpush p (List.mem_reverse.mp hp)) (by simpa using hF)]
  simp only [Option.some_bind]
  have h2 : (pairs.reverse.map Prod.snd).reverse = pairs.map Prod.snd := by
    rw [List.map_reverse, List.reverse_reverse]
  rw [h2]
  rfl

/-- Witness for C1: calling an anonymous function on the two string
literals a and b reaches callee entry with a on top of the stack and b
beneath it. -/
theorem c1_argument_order_witness :
    execValue fsNone 4
        (.fnCall (.mk (.function (.mk [] (.mk [])))
          [.literal (.str "a"), .literal (.str "b")])) conf0 =
      fnCallTail fsNone 3 (.function (.mk [] (.mk [])))
        (stackPrepend [.str "a", .str "b"] conf0) :=
  c1_argument_order fsNone [(.literal (.str "a"), .str "a"), (.literal (.str "b"), .str "b")]
    (.function (.mk [] (.mk []))) 3 conf0
    (by intro p hp g c2; fin_cases hp <;> rfl)
    (by decide)

/-- Appending one batch of events after another is appending their
concatenation. -/
theorem addEvents_addEvents (a b : List Event) (c : Conf) :
    addEvents b (addEvents a c) = addEvents (a ++ b) c := by
  simp [addEvents]

/-- Executing a list of argument expressions in sequence, when each of
them only appends its own batch of host events (given the fixed register
file R), appends the batches in the execution order of the list. -/
theorem execValues_effects (fs : Fs) (R : List (String × RValue)) (N : Nat) :
    ∀ (l : List (ValueAst × List Event)) (F : Nat) (c : Conf),
      (∀ p ∈ l, ∀ (g : Nat) (c2 : Conf), c2.registers = R →
          execValue fs (g + N + 1) p.1 c2 = some (addEvents p.2 c2)) →
      c.registers = R →
      l.length + N < F →
      execValues fs F (l.map Prod.fst) c = some (addEvents ((l.map Prod.snd).flatten) c) := by
  intro l
  induction l with
  | nil =>
    intro F c hp hreg hF
    obtain ⟨f, rfl⟩ : ∃ f, F = f + 1 := ⟨F - 1, by omega⟩
    rw [List.map_nil, execValues]
    simp [addEvents]
  | cons p r ih =>
    intro F c hp hreg hF
    obtain ⟨g, rfl⟩ : ∃ g, F = g + N + 1 + 1 := ⟨F - N - 2, by simp at hF; omega⟩
    rw [List.map_cons, execValues, hp p (by simp) g c hreg]
    simp only [Option.some_bind]
    rw [ih (g + N + 1) (addEvents p.2 c) (fun q hq => hp q (by simp [hq]))
      (hreg : (addEvents p.2 c).registers = R) (by simp at hF ⊢; omega)]
    rw [addEvents_addEvents]
    simp

/-- A call of the println host primitive on a string literal prints that
string and changes nothing else, whenever the identifier println is bound
to the println primitive in the registers. -/
theorem println_call_effect (fs : Fs) (s : String) (g : Nat) (c2 : Conf)
    (h : lookupReg "println" c2.registers = some (.func (.host .println))) :
    execValue fs (g + 10) (plnCall s) c2 = some (addEvents [.outln s] c2) := by
  show execValue fs (g + 10)
      (.fnCall (.mk (.name (.name (Identifier.mk "println"))) [.literal (.str s)])) c2 = _
  have e3 : ((c2.push (.str s)).push (.str "println")).load
      = (c2.push (.str s)).push (.func (.host .println)) := by
    rw [Conf.load, pop_push]
    show (c2.push (.str s)).push
        ((lookupReg (keyOf (.str "println")) (c2.push (.str s)).registers).getD (.tree [])) = _
    rw [show keyOf (RValue.str "println") = "println" from rfl,
      show ((c2.push (.str s)).registers) = c2.registers from rfl, h]
    rfl
  have e1 : execValues fs (g + 9) ([ValueAst.literal (.str s)].reverse) c2
      = some (c2.push (.str s)) := rfl
  have e2 : execValue fs (g + 9) (.name (.name (Identifier.mk "println"))) (c2.push (.str s))
      = some (((c2.push (.str s)).push (.str "println")).load) := rfl
  rw [execValue, e1]
  simp only [Option.some_bind]
  rw [e2]
  simp only [Option.some_bind]
  rw [e3]
  rfl

/-- Claim C2 (amended): the side effects of the argument expressions of a
call occur RIGHT-to-left in source order, not left-to-right as claimed:
FnCall::execute reverses the argument list and then executes the reversed
list in order, so the last argument's effects happen first and the first
argument's effects happen last (which is also why the first argument's
value ends on top of the stack).  The hypothesis says each argument's
execution only appends its batch of events given the fixed register file
R; the conclusion shows the batches appear in reversed source order. -/
theorem c2_effects_right_to_left (fs : Fs) (R : List (String × RValue)) (N : Nat)
    (pairs : List (ValueAst × List Event)) (callee : ValueAst) (F : Nat) (c : Conf)
    (heff : ∀ p ∈ pairs, ∀ (g : Nat) (c2 : Conf), c2.registers = R →
        execValue fs (g + N + 1) p.1 c2 = some (addEvents p.2 c2))
    (hreg : c.registers = R)
    (hF : pairs.length + N < F) :
    execValue fs (F + 1) (.fnCall (.mk callee (pairs.map Prod.fst))) c =
      fnCallTail fs F callee (addEvents ((pairs.reverse.map Prod.snd).flatten) c) := by
  rw [execValue,
    show (pairs.map Prod.fst).reverse = pairs.reverse.map Prod.fst from
      (List.map_reverse _ _).symm,
    execValues_effects fs R N pairs.reverse F c
      (fun p hp => heff p (List.mem_reverse.mp hp)) hreg (by simpa using hF)]
  simp only [Option.some_bind]
  rfl

/-- Witness for the amended C2: calling an anonymous function on the
arguments println("a"), println("b") reaches callee entry having printed
b first and a second. -/
theorem c2_effects_right_to_left_witness :
    execValue fsNone 13
        (.fnCall (.mk (.function (.mk [] (.mk []))) [plnCall "a", plnCall "b"])) conf0 =
      fnCallTail fsNone 12 (.function (.mk [] (.mk [])))
        (addEvents [Event.outln "b", Event.outln "a"] conf0) :=
  c2_effects_right_to_left fsNone machineInit.registers 9
    [(plnCall "a", [.outln "a"]), (plnCall "b", [.outln "b"])]
    (.function (.mk [] (.mk []))) 12 conf0
    (by intro p hp g c2 h
        fin_cases hp <;> exact println_call_effect fsNone _ g c2 (by rw [h]; rfl))
    rfl (by decide)

/-- Counterexample to C2 as stated: executing f(println("a"), println("b"))
(with f an anonymous no-op function) against a fresh shell prints b before
a, so the side effects of the first argument do NOT occur first: the output
trace is outln b then outln a, not outln a then outln b. -/
theorem c2_left_to_right_counterexample :
    (execValue fsNone 12
        (.fnCall (.mk (.function (.mk [] (.mk []))) [plnCall "a", plnCall "b"]))
        conf0).map Conf.events = some [Event.outln "b", Event.outln "a"] ∧
    some [Event.outln "b", Event.outln "a"] ≠ some [Event.outln "a", Event.outln "b"] :=
  ⟨by decide, by decide⟩

/-- Claim C3: after any top-level program submission the REPL executes the
program, prints the drained stack and clears it, leaving the machine's
evaluation stack empty while the register tree of the post-execution state
persists unchanged into the next prompt iteration. -/
theorem c3_stack_drained (fs : Fs) (f : Nat) (es : List Expr) (c c2 : Conf)
    (h : execExprs fs f es c = some c2) :
    replSubmit fs f es c = some (replFinish c2) ∧
    (replFinish c2).stack = [] ∧ (replFinish c2).registers = c2.registers := by
  refine ⟨?_, (replFinish_spec c2).1, (replFinish_spec c2).2⟩
  simp [replSubmit, h]

/-- Witness for C3: submitting the one-literal program whose execution
pushes the string hi ends the prompt iteration with an empty stack and the
registers of the executed state. -/
theorem c3_stack_drained_witness :
    replSubmit fsNone 3 [.value (.literal (.str "hi"))] conf0 =
      some (replFinish (conf0.push (.str "hi"))) ∧
    (replFinish (conf0.push (.str "hi"))).stack = [] ∧
    (replFinish (conf0.push (.str "hi"))).registers = (conf0.push (.str "hi")).registers :=
  c3_stack_drained fsNone 3 [.value (.literal (.str "hi"))] conf0 (conf0.push (.str "hi")) rfl

/-- Claim C4 (amended): executing while 0 runs the loop body zero times
(the state comes back unchanged whatever the body is), but executing
while 1 with the body exit() does NOT terminate, contrary to the claim:
the exit built-in only sets the REPL termination flag, which the while
executor never consults, so the loop diverges (no recursion fuel ever
suffices). -/
theorem c4_while_semantics :
    (∀ (fs : Fs) (body : Suite) (f : Nat) (c : Conf),
        execExpr fs (f + 2) (.whileLoop (.literal (.num 0)) body) c = some c) ∧
    (∀ (fs : Fs) (c : Conf), divergesExpr fs while1exit c) := by
  constructor
  · intro fs body f c
    have h1 : execValue fs (f + 1) (.literal (.num 0)) c = some (c.push (.num 0)) := rfl
    have h2 : popBool (c.push (.num 0)) = (false, c) := rfl
    rw [show f + 2 = (f + 1) + 1 from rfl, execExpr, h1]
    simp only [Option.some_bind]
    rw [h2]
  · intro fs c f
    exact while1exit_none fs f c

/-- Counterexample to C4 as stated: against a fresh shell, the program
while 1 with body exit() diverges (its execution fails at every recursion
fuel), so it does not terminate as the claim asserts. -/
theorem c4_while_one_exit_diverges_counterexample : divergesExpr fsNone while1exit conf0 :=
  fun f => while1exit_none fsNone f conf0

/-- Register lookup of a key immediately after it was stored returns the
stored value, wherever the key sits in the insertion-ordered file. -/
theorem lookup_setReg (k : String) (v : RValue) :
    ∀ r : List (String × RValue), lookupReg k (setReg k v r) = some v := by
  intro r
  induction r with
  | nil => simp [setReg, lookupReg]
  | cons kv r ih =>
    by_cases h : kv.1 = k
    · simp [setReg, h, lookupReg]
    · simp [setReg, h, lookupReg, ih]

/-- Claim C5: after a call of a user-defined function with parameter p on
an argument whose value is v returns, the binding p = v made during the
call is still visible in the caller's register tree (no unwinding).  The
hypotheses fix the argument's value and ask that the body itself complete
without rebinding p, which is the situation the claim describes. -/
theorem c5_param_binding_persists (fs : Fs) (p : String) (es : List Expr) (arg : ValueAst)
    (v : RValue) (f : Nat) (c : Conf)
    (hArg : ∀ (g : Nat) (c2 : Conf), execValue fs (g + 1) arg c2 = some (c2.push v))
    (hBody : ∀ (g : Nat) (c2 : Conf), ∃ c3, execExprs fs (g + 1) es c2 = some c3 ∧
        lookupReg p c3.registers = lookupReg p c2.registers) :
    (execValue fs (f + 4)
        (.fnCall (.mk (.function (.mk [Identifier.mk p] (.mk es))) [arg])) c).map
      (fun r => lookupReg p r.registers) = some (some v) := by
  have step1 : execValue fs (f + 4)
      (.fnCall (.mk (.function (.mk [Identifier.mk p] (.mk es))) [arg])) c
      = execCall fs (f + 3) ((c.push v).push (.func (.user [Identifier.mk p] (.mk es)))) := by
    rw [execValue]
    have e1 : execValues fs (f + 3) ([arg].reverse) c = some (c.push v) := by
      show execValues fs (f + 3) [arg] c = some (c.push v)
      rw [execValues, show execValue fs (f + 2) arg c = some (c.push v) from hArg (f + 1) c]
      rfl
    rw [e1]
    rfl
  have step2 : execCall fs (f + 3)
      ((c.push v).push (.func (.user [Identifier.mk p] (.mk es))))
      = (execExprs fs (f + 2) es
          { shell :=
              { directory := fs.home
                machine := { stack := c.stack, registers := setReg p v c.registers }
                isDone := false }
            world := c.world }).map (fun cf =>
          { shell :=
              { directory := c.directory
                machine := { stack := cf.stack, registers := cf.registers }
                isDone := c.isDone }
            world := cf.world }) := rfl
  obtain ⟨c3, hc3, hlook⟩ := hBody (f + 1)
    { shell :=
        { directory := fs.home
          machine := { stack := c.stack, registers := setReg p v c.registers }
          isDone := false }
      world := c.world }
  have hc3x : execExprs fs (f + 2) es
      { shell :=
          { directory := fs.home
            machine := { stack := c.stack, registers := setReg p v c.registers }
            isDone := false }
        world := c.world } = some c3 := hc3
  rw [step1, step2, hc3x]
  simp only [Option.map_some']
  have : lookupReg p c3.registers = some v := by
    rw [hlook]
    show lookupReg p (setReg p v c.registers) = some v
    exact lookup_setReg p v c.registers
  exact congrArg some this

/-- Witness for C5: calling fn(x) with empty body on the string literal
val leaves the binding x = val visible in the caller's registers. -/
theorem c5_param_binding_persists_witness :
    (execValue fsNone 4
        (.fnCall (.mk (.function (.mk [Identifier.mk "x"] (.mk []))) [.literal (.str "val")]))
        conf0).map (fun r => lookupReg "x" r.registers) = some (some (.str "val")) :=
  c5_param_binding_persists fsNone "x" [] (.literal (.str "val")) (.str "val") 0 conf0
    (fun _ _ => rfl) (fun _ c2 => ⟨c2, rfl, rfl⟩)

/-- Claim C6: executing FunctionDef(name, f) is observationally identical
to executing Assignment(name, Function(f)): exactly the same results are
reachable (the source delegates the former to the latter, costing one
level of modelled recursion fuel, which the big-step relation absorbs). -/
theorem c6_functiondef_equiv_assignment (fs : Fs) (n : NameAst) (fn : FunctionAst) (c r : Conf) :
    evalExprTo fs (.functionDef (.mk n fn)) c r ↔ evalExprTo fs (.assignment n (.function fn)) c r := by
  constructor
  · rintro ⟨f, h⟩
    cases f with
    | zero => simp [execExpr] at h
    | succ g => exact ⟨g, h⟩
  · rintro ⟨f, h⟩
    exact ⟨f + 1, h⟩

/-- A function literal never parses at a position holding the keyword ls:
the fn keyword fails against the letter l. -/
theorem function_ls_none :
    ∀ (g : Nat) (rest : List Char), function g ('l' :: 's' :: rest) = none := by
  intro g rest
  cases g with
  | zero => rfl
  | succ h => rfl

/-- On input starting with the keyword ls, the function-call parser either
fails or produces a call whose callee is the ls built-in: both of its
branches commit to the built-in keyword before ever trying an identifier. -/
theorem fncall_ls (h : Nat) (rest : List Char) :
    fncall (h + 1) ('l' :: 's' :: rest) = none ∨
    ∃ args rem, fncall (h + 1) ('l' :: 's' :: rest) =
      some (ValueAst.fnCall (.mk (.builtin .list) args), rem) := by
  have hbv : builtinValue ('l' :: 's' :: rest) = some (ValueAst.builtin .list, rest) := rfl
  rw [fncall]
  cases hA : pmany1 h (value h) rest with
  | some pr =>
    refine Or.inr ⟨pr.1, pr.2, ?_⟩
    simp [por, pthen, pmap, hbv, hA]
  | none =>
    cases hB : parray h "(" ")" (value h) rest with
    | some pr =>
      refine Or.inr ⟨pr.1, pr.2, ?_⟩
      simp [por, pthen, pmap, hbv, hA, hB]
    | none =>
      refine Or.inl ?_
      simp [por, pthen, pmap, hbv, hA, hB]

/-- Claim C7: in every value position of the grammar (everywhere the value
production is invoked: arguments, conditions, right-hand sides, group
interiors, index brackets), input starting with the token ls parses as the
List built-in, never as the identifier name Name::Name(Identifier ls): at
any recursion fuel, a successful parse is either the bare built-in or a
juxtaposition call whose callee is the built-in, because the built-in
alternatives are tried before the identifier alternatives, so ls never
resolves through the register tree when it is read in a value position. -/
theorem c7_ls_reserved_in_value_position (f : Nat) (rest : List Char) :
    value f ('l' :: 's' :: rest) = none ∨
    (∃ rem, value f ('l' :: 's' :: rest) = some (ValueAst.builtin .list, rem)) ∨
    (∃ args rem, value f ('l' :: 's' :: rest) =
      some (.fnCall (.mk (.builtin .list) args), rem)) := by
  match f with
  | 0 => exact Or.inl rfl
  | 1 => exact Or.inl rfl
  | 2 => exact Or.inr (Or.inl ⟨rest, rfl⟩)
  | (h + 3) =>
    have hfn : function (h + 1) ('l' :: 's' :: rest) = none := function_ls_none (h + 1) rest
    have hbv : builtinValue ('l' :: 's' :: rest) = some (ValueAst.builtin .list, rest) := rfl
    rcases fncall_ls h rest with hfc | ⟨args, rem, hfc⟩
    · refine Or.inr (Or.inl ⟨rest, ?_⟩)
      rw [value, recursiveValue]
      simp [por, pmap, hfn, hfc, hbv]
    · refine Or.inr (Or.inr ⟨args, rem, ?_⟩)
      rw [value, recursiveValue]
      simp [por, pmap, hfn, hfc]

/-- Claim C8 (amended): of the path-taking built-ins, only rm, mkdir and
mkf treat the empty string as a no-op (no host call, state unchanged); cd
and mv do not special-case the empty string: cd still issues a
canonicalize call on the joined path (adopting its result when it
succeeds) and mv still issues a rename on the joined paths. -/
theorem c8_empty_path_guards (fs : Fs) (c : Conf) :
    Shell.rm c "" = c ∧ Shell.mkdir c "" = c ∧ Shell.mkf c "" = c ∧
    (Shell.mv c "" "").events =
      c.events ++ [Event.renameFs (pathPush c.directory "") (pathPush c.directory "")] ∧
    (Shell.cd fs c "").events =
      c.events ++ [Event.canonicalize (pathPush c.directory "")] := by
  refine ⟨by simp [Shell.rm], by simp [Shell.mkdir], by simp [Shell.mkf],
    by simp [Shell.mv, Conf.addEvent, Conf.events], ?_⟩
  rw [Shell.cd]
  cases h : fs.canonicalize (pathPush c.directory "") <;>
    simp [h, Conf.withDirectory, Conf.addEvent, Conf.events]

/-- Counterexample to C8 as stated: invoking the mv built-in with two
empty-string operands against a fresh shell is not a no-op: it performs a
host rename of the joined (empty) paths, so a host filesystem operation is
performed. -/
theorem c8_empty_path_counterexample :
    (execBuiltin fsNone .move ((conf0.push (.str "")).push (.str ""))).events =
      [Event.renameFs "/home/" "/home/"] ∧
    [Event.renameFs "/home/" "/home/"] ≠ ([] : List Event) :=
  ⟨rfl, by decide⟩

/-- Claim C9: the cd built-in joins its path operand onto the current
directory and canonicalises the result through the host; on success the
canonicalised directory becomes the current directory, and on failure the
current directory is kept exactly unchanged. -/
theorem c9_cd_canonicalise (fs : Fs) (c : Conf) (p : String) :
    (∀ d, fs.canonicalize (pathPush c.directory p) = some d →
        (Shell.cd fs c p).directory = d) ∧
    (fs.canonicalize (pathPush c.directory p) = none →
        (Shell.cd fs c p).directory = c.directory) := by
  constructor
  · intro d h
    simp only [Conf.directory] at h
    simp [Shell.cd, h, Conf.withDirectory, Conf.directory, Conf.addEvent]
  · intro h
    simp only [Conf.directory] at h
    simp [Shell.cd, h, Conf.directory, Conf.addEvent]

/-- Witness for C9: on an oracle that canonicalises everything to
/resolved the directory becomes /resolved, and on an oracle that always
fails the directory is unchanged. -/
theorem c9_cd_canonicalise_witness :
    (Shell.cd fsSome conf0 "a").directory = "/resolved" ∧
    (Shell.cd fsNone conf0 "a").directory = conf0.directory :=
  ⟨(c9_cd_canonicalise fsSome conf0 "a").1 "/resolved" rfl,
   (c9_cd_canonicalise fsNone conf0 "a").2 rfl⟩

/-- Claim C10: a call of a user-defined function runs its body against a
freshly constructed shell (home directory, cleared termination flag)
receiving only the caller's stack and register tree, and publishes only
the callee machine back: whatever the body does (including cd and exit),
a completed call leaves the calling shell's current directory and
termination flag exactly as they were. -/
theorem c10_call_preserves_caller_shell (fs : Fs) (f : Nat) (ps : List Identifier)
    (es : List Expr) (rest : List RValue) (c r : Conf)
    (hstack : c.stack = RValue.func (.user ps (.mk es)) :: rest)
    (h : execCall fs f c = some r) :
    r.directory = c.directory ∧ r.isDone = c.isDone := by
  cases f with
  | zero => simp [execCall] at h
  | succ g =>
    have hpop : c.pop = (some (RValue.func (.user ps (.mk es))), c.withStack rest) := by
      simp [Conf.pop, hstack]
    rw [execCall, hpop] at h
    simp only at h
    rcases Option.map_eq_some'.mp h with ⟨cf, hcf, hr⟩
    subst hr
    exact ⟨rfl, rfl⟩

/-- Witness for C10: calling a function whose body is exit() completes
with the caller's directory and termination flag unchanged (the call
returns the initial configuration itself). -/
theorem c10_call_preserves_caller_shell_witness :
    conf0.directory = (conf0.withStack [.func (.user [] (.mk [.value exitCall]))]).directory ∧
    conf0.isDone = (conf0.withStack [.func (.user [] (.mk [.value exitCall]))]).isDone :=
  c10_call_preserves_caller_shell fsNone 6 [] [.value exitCall] []
    (conf0.withStack [.func (.user [] (.mk [.value exitCall]))]) conf0 rfl (by rfl)

end Dune
